import Mathlib

/-!
Verification development for the SlicerConnect collaborative-segmentation
repository.  The definitions below are a shallow embedding of the
synchronization engine in `SlicerConnectEditor/SlicerConnectEditor.py`
(classes `WebSocketHandler` and `SlicerConnectEditorLogic`).

Modelling conventions:
* a numpy 3-D label array is an `Arr3`: a shape `(d0, d1, d2)` (numpy
  `(z, y, x)` axis order) together with a total valuation function; only
  in-range coordinates are meaningful, and array equality (`Arr3.equiv`)
  compares shapes and all in-range voxels;
* machine integers are `Nat` with explicit `% 65536` where the code casts
  to `np.uint16`;
* float arithmetic of the source (`changePercent`, `np.linspace`,
  `np.round`, index scaling) is modelled over `ℚ` with round-half-to-even
  (`np.round` ties to even); the comparisons the claims exercise are far
  from any float-rounding boundary;
* Python exceptions that the code catches (numpy `IndexError`,
  `ZeroDivisionError`) are modelled by `Option`: `none` means the
  `except` branch ran and the surrounding state was left unchanged.
-/

/-- A 3-D label array: numpy shape `(z, y, x)` plus voxel values. -/
structure Arr3 where
  dims : Nat × Nat × Nat
  val : Nat → Nat → Nat → Nat

/-- Total number of voxels, `array.size` in numpy. -/
def Arr3.size (a : Arr3) : Nat := a.dims.1 * (a.dims.2.1 * a.dims.2.2)

/-- All in-range coordinates in C (row-major) order, the order in which
`np.argwhere` lists the true positions of a boolean mask. -/
def idxList (d : Nat × Nat × Nat) : List (Nat × Nat × Nat) :=
  (List.range d.1).flatMap fun z =>
    (List.range d.2.1).flatMap fun y =>
      (List.range d.2.2).map fun x => (z, y, x)

/-- Numpy array equality: same shape and same value at every in-range voxel. -/
def Arr3.equiv (a b : Arr3) : Prop :=
  a.dims = b.dims ∧ ∀ p ∈ idxList a.dims, a.val p.1 p.2.1 p.2.2 = b.val p.1 p.2.1 p.2.2

/-- Bounds check for one `(z, y, x)` index against a shape. -/
def inBounds (d : Nat × Nat × Nat) (p : Nat × Nat × Nat) : Bool :=
  decide (p.1 < d.1) && decide (p.2.1 < d.2.1) && decide (p.2.2 < d.2.2)

/-- Round half to even on a nonnegative rational, the tie rule of
`np.round`. -/
def rne (q : ℚ) : Nat :=
  if q - ⌊q⌋ < 1 / 2 then ⌊q⌋.toNat
  else if 1 / 2 < q - ⌊q⌋ then ⌊q⌋.toNat + 1
  else if ⌊q⌋ % 2 = 0 then ⌊q⌋.toNat else ⌊q⌋.toNat + 1

/-- Source index chosen by `np.round(np.linspace(0, P - 1, T))` at target
position `i` (`_resampleToShape`, SlicerConnectEditor.py lines 448-453):
endpoint-aligned spacing `(P-1)/(T-1)`, rounded half to even.  For `T = 1`,
`np.linspace(0, P-1, 1)` is `[0]`. -/
def srcIdx (P T i : Nat) : Nat :=
  if T ≤ 1 then 0 else rne ((i : ℚ) * ((P : ℚ) - 1) / ((T : ℚ) - 1))

/-- The list `np.round(np.linspace(0, P - 1, T)).astype(int)`. -/
def linspaceIdx (P T : Nat) : List Nat := (List.range T).map (srcIdx P T)

/-- `_resampleToShape` (lines 448-453): dependency-free nearest-neighbour
resize via `array[np.ix_(iz, iy, ix)]`. -/
def resampleToShape (a : Arr3) (t : Nat × Nat × Nat) : Arr3 :=
  { dims := t
    val := fun z y x =>
      a.val ((linspaceIdx a.dims.1 t.1).getD z 0)
            ((linspaceIdx a.dims.2.1 t.2.1).getD y 0)
            ((linspaceIdx a.dims.2.2 t.2.2).getD x 0) }

/-- `_computeChangedMask` (lines 455-466): all-ones when there is no
baseline; direct `!=` when shapes agree; resample the baseline first when
they differ. -/
def computeChangedMask (prev : Option Arr3) (cur : Arr3) (z y x : Nat) : Bool :=
  match prev with
  | none => true
  | some p =>
    if p.dims = cur.dims then cur.val z y x != p.val z y x
    else cur.val z y x != (resampleToShape p cur.dims).val z y x

/-- The `(index, value)` pairs of the sparse delta:
`np.argwhere(changedMask)` zipped with `currentArray[changedMask]`, both in
C order (lines 497-498). -/
def changedPairs (prev : Option Arr3) (cur : Arr3) : List ((Nat × Nat × Nat) × Nat) :=
  ((idxList cur.dims).filter
      (fun p => computeChangedMask prev cur p.1 p.2.1 p.2.2)).map
    (fun p => (p, cur.val p.1 p.2.1 p.2.2))

/-- One fancy-indexing store: write `pr.2` at coordinate `pr.1`. -/
def updOne (a : Arr3) (pr : (Nat × Nat × Nat) × Nat) : Arr3 :=
  { a with val := fun z y x => if (z, y, x) = pr.1 then pr.2 else a.val z y x }

/-- Sequential element stores of `currentArray[iz, iy, ix] = values`
(line 627); with duplicate indices the last pair wins. -/
def writePairs (a : Arr3) (ps : List ((Nat × Nat × Nat) × Nat)) : Arr3 :=
  ps.foldl updOne a

/-- Numpy fancy-indexing assignment: `none` models the `IndexError` raised
when any index is out of bounds (no element is stored and the caller's
`except` branch runs); the length test models the shape check of the
assignment. -/
def fancyAssign (a : Arr3) (idx : List (Nat × Nat × Nat)) (vals : List Nat) :
    Option Arr3 :=
  if idx.length = vals.length && idx.all (fun p => inBounds a.dims p) then
    some (writePairs a (idx.zip vals))
  else none

/-- Decoded payload of a `segmentation_delta` message: uint16 `(z, y, x)`
triples, the parallel value list, and the `dimensions` field (`none` models
a missing or empty `"dimensions"` entry).  `username` is attached by the
server on inbound messages. -/
structure DeltaMsg where
  username : String
  indices : List (Nat × Nat × Nat)
  values : List Nat
  dimsField : Option (Nat × Nat × Nat)

/-- Decoded payload of a `segmentation_full` message: the label bytes in C
order plus the `dimensions` field. -/
structure FullMsg where
  username : String
  flat : Nat → Nat
  dimsField : Nat × Nat × Nat

/-- An outgoing framed message. -/
inductive Msg
  | delta (m : DeltaMsg)
  | full (m : FullMsg)

/-- C-order flattening of an array, `array.tobytes()` element order. -/
def Arr3.flatten (a : Arr3) : Nat → Nat := fun n =>
  a.val (n / (a.dims.2.1 * a.dims.2.2)) (n / a.dims.2.2 % a.dims.2.1)
    (n % a.dims.2.2)

/-- The `segmentation_full` message built by `sendFullSegmentation`
(lines 549-574): `imageData` is the compressed flattened array and
`dimensions` is the numpy shape of the sender array, written unreversed. -/
def fullMsgOf (cur : Arr3) : FullMsg :=
  { username := "", flat := cur.flatten, dimsField := cur.dims }

/-- The `segmentation_delta` message built by `sendSegmentationDelta`
(lines 512-535): indices pass through `.astype(np.uint16)`, which reduces
each component modulo 65536; values survive byte-for-byte because the
receiver decodes with the `dataType` tag the sender wrote. -/
def deltaMsgOf (cur : Arr3) (pairs : List ((Nat × Nat × Nat) × Nat)) : DeltaMsg :=
  { username := ""
    indices := pairs.map fun pr => (pr.1.1 % 65536, pr.1.2.1 % 65536, pr.1.2.2 % 65536)
    values := pairs.map fun pr => pr.2
    dimsField := some cur.dims }

/-- State of a `WebSocketHandler`: whether `self.ws` is set and the
`_isConnected` flag. -/
structure WsState where
  wsSome : Bool
  connectedFlag : Bool
deriving DecidableEq

/-- `WebSocketHandler.send` (lines 295-300): transmits only when
`self.ws and self._isConnected`; a raising `ws.send` (modelled by the
`fails` argument) is swallowed by the `except` branch.  The returned `Bool`
records whether the frame actually reached the transport. -/
def wsHandlerSend (w : WsState) (fails : Bool) : Bool :=
  if w.wsSome && w.connectedFlag then !fails else false

/-- Sync-relevant state of a `SlicerConnectEditorLogic`. -/
structure LogicState where
  sentCount : Nat
  receivedCount : Nat
  connectedUsers : Nat
  isUpdating : Bool
  previousSegmentation : Option Arr3
  hasNode : Bool
  ws : WsState
  debouncePending : Bool

/-- `_sendDebouncedDelta` (lines 468-469): the debounce-timer callback is a
stub that only prints; no message is produced and no sync state changes. -/
def sendDebouncedDelta (s : LogicState) : LogicState × List (Msg × Bool) :=
  ({ s with debouncePending := false }, [])

/-- `sendSegmentationDelta` (lines 471-547).  The current scene array is
the `cur` argument (`getCurrentSegmentationArray`), `fails` tells whether
the underlying `ws.send` would raise.  Note: the guard
`if self.wsHandler and self.wsHandler.isConnected:` on lines 537 and 576
reads the *bound method* `isConnected` without calling it; a bound method
is always truthy, so the branch is always taken and `sentCount` is
incremented whether or not the transport accepted the frame.  The exact
comparison `10 * n > 3 * t` models the float test
`(numChanged / totalVoxels) * 100 > 30`. -/
def sendSegmentationDelta (s0 : LogicState) (cur : Arr3) (fails : Bool) :
    LogicState × Option (Msg × Bool) :=
  let s := { s0 with debouncePending := true }
  if s.isUpdating || !s.hasNode then (s, none)
  else
    match s.previousSegmentation with
    | none =>
        let ok := wsHandlerSend s.ws fails
        ({ s with sentCount := s.sentCount + 1, previousSegmentation := some cur },
          some (Msg.full (fullMsgOf cur), ok))
    | some p =>
        let pairs := changedPairs (some p) cur
        if pairs.isEmpty then (s, none)
        else if 10 * pairs.length > 3 * cur.size then
          let ok := wsHandlerSend s.ws fails
          ({ s with sentCount := s.sentCount + 1, previousSegmentation := some cur },
            some (Msg.full (fullMsgOf cur), ok))
        else
          let ok := wsHandlerSend s.ws fails
          ({ s with sentCount := s.sentCount + 1, previousSegmentation := some cur },
            some (Msg.delta (deltaMsgOf cur pairs), ok))

/-- Index remapping of `handleSegmentationDelta` (lines 617-625):
`np.clip(np.round(i * (curD / inD)), 0, curD - 1)` followed by
`.astype(np.uint16)`. -/
def remapIdx (curD inD i : Nat) : Nat :=
  min (curD - 1) (rne ((i : ℚ) * ((curD : ℚ) / (inD : ℚ)))) % 65536

/-- `handleSegmentationDelta` (lines 586-644).  `cur` is the receiver's
current scene array; the result carries the array written back to the
scene, or `none` when the message was dropped (guard failed or an
exception was caught, leaving scene, baseline and counters unchanged).
A zero incoming dimension models the `ZeroDivisionError` of the scale
computation. -/
def handleSegmentationDelta (s : LogicState) (m : DeltaMsg) (cur : Arr3) :
    LogicState × Option Arr3 :=
  if !s.hasNode || s.isUpdating then (s, none)
  else
    let apply : List (Nat × Nat × Nat) → LogicState × Option Arr3 := fun idx =>
      match fancyAssign cur idx m.values with
      | none => (s, none)
      | some arr =>
          ({ s with receivedCount := s.receivedCount + 1,
                    previousSegmentation := some arr }, some arr)
    match m.dimsField with
    | none => apply m.indices
    | some inDims =>
        if inDims = cur.dims then apply m.indices
        else if inDims.1 = 0 || inDims.2.1 = 0 || inDims.2.2 = 0 then (s, none)
        else
          apply (m.indices.map fun p =>
            (remapIdx cur.dims.1 inDims.1 p.1,
             remapIdx cur.dims.2.1 inDims.2.1 p.2.1,
             remapIdx cur.dims.2.2 inDims.2.2 p.2.2))

/-- `handleFullSegmentation` (lines 724-785): the decompressed bytes are
reshaped to `(dims[2], dims[1], dims[0])` — the reverse of the order the
sender wrote — then imported and stored as the new baseline. -/
def handleFullSegmentation (s : LogicState) (m : FullMsg) :
    LogicState × Option Arr3 :=
  if s.isUpdating then (s, none)
  else
    let d := m.dimsField
    let arr : Arr3 :=
      { dims := (d.2.2, d.2.1, d.1)
        val := fun z y x => m.flat (z * (d.2.1 * d.1) + y * d.1 + x) }
    ({ s with receivedCount := s.receivedCount + 1,
              previousSegmentation := some arr }, some arr)

/-- An inbound parsed message, the tag union dispatched by `onWsMessage`. -/
inductive InMsg
  | segDelta (m : DeltaMsg)
  | segFull (m : FullMsg)
  | userJoined (username : String) (totalUsers : Nat)
  | userList (users : List String)
  | userLeft (username : String) (totalUsers : Nat)
  | errorMsg (text : String)

/-- `onWsMessage` (lines 372-394): route by `type`; no originating-user
check is performed on any branch. -/
def onWsMessage (s : LogicState) (m : InMsg) (cur : Arr3) :
    LogicState × Option Arr3 :=
  match m with
  | .segDelta d => handleSegmentationDelta s d cur
  | .segFull f => handleFullSegmentation s f
  | .userJoined _ total => ({ s with connectedUsers := total }, none)
  | .userList users => ({ s with connectedUsers := users.length }, none)
  | .userLeft _ total => ({ s with connectedUsers := total }, none)
  | .errorMsg _ => (s, none)

/-- `onWsDisconnected` (lines 400-402), the slot actually connected to the
`socketDisconnected` signal: it only prints, so every field of the sync
state keeps its value. -/
def onWsDisconnected (s : LogicState) : LogicState := s

/-- `handleDisconnect` (lines 345-352): closes the socket and resets
counters and baseline.  No caller of this method exists anywhere in the
repository. -/
def handleDisconnect (s : LogicState) : LogicState :=
  { s with sentCount := 0, receivedCount := 0, connectedUsers := 0,
           previousSegmentation := none,
           ws := { wsSome := false, connectedFlag := false } }

/-- A local activity source event: a segmentation-modified notification
carrying the post-edit scene array, or the debounce timer firing. -/
inductive Ev
  | mut (cur : Arr3)
  | fire

/-- One event step.  `onSegmentationModified` (lines 205-209) guards with
`self.logic.wsHandler.isConnected and not self.logic.isUpdating`; again
`isConnected` is the uncalled bound method, hence always truthy. -/
def stepEvent (s : LogicState) (e : Ev) : LogicState × List (Msg × Bool) :=
  match e with
  | .mut cur =>
      if !s.isUpdating then
        let r := sendSegmentationDelta s cur false
        (r.1, r.2.toList)
      else (s, [])
  | .fire => sendDebouncedDelta s

/-- Run a sequence of local events, collecting every outgoing message
paired with its transport-success flag. -/
def runEvents (s : LogicState) : List Ev → LogicState × List (Msg × Bool)
  | [] => (s, [])
  | e :: rest =>
      let r := stepEvent s e
      let r2 := runEvents r.1 rest
      (r2.1, r.2 ++ r2.2)

/-- Modelled from the spec: the resampling formula the claim states for
`_resampleToShape` — per axis `scale = currentDim / prevDim`,
`srcIndex = round(dstIndex / scale)` clamped to the valid range
`[0, prevDim - 1]`.  Written from the words of spec section 4.3 for
comparison against the source definition `srcIdx`. -/
def specSrcIdx (P T i : Nat) : Nat :=
  min (P - 1) (rne ((i : ℚ) * ((P : ℚ) / (T : ℚ))))

/-- Run-length pairs of a byte list, runs capped at 255 so every emitted
number stays one byte. -/
def rleEncode : List Nat → List (Nat × Nat)
  | [] => []
  | a :: rest =>
      match rleEncode rest with
      | [] => [(1, a)]
      | (n, b) :: tail =>
          if a = b ∧ n < 255 then (n + 1, b) :: tail
          else (1, a) :: (n, b) :: tail

/-- Expansion of run-length pairs. -/
def rleDecode : List (Nat × Nat) → List Nat
  | [] => []
  | (n, b) :: tail => List.replicate n b ++ rleDecode tail

/-- Serialize run-length pairs to a flat byte list. -/
def pairsFlatten : List (Nat × Nat) → List Nat
  | [] => []
  | (n, b) :: tail => n :: b :: pairsFlatten tail

/-- Parse a flat byte list back into run-length pairs. -/
def pairsUnflatten : List Nat → List (Nat × Nat)
  | n :: b :: rest => (n, b) :: pairsUnflatten rest
  | _ => []

/-- Modelled from the spec: `zlib.compress` is an external library call
(Python stdlib, no source in this repository).  Spec section 4.2 requires
only a deterministic deflate-family lossless byte compression with
`decompress(compress(x)) == x`; modelled as byte run-length coding, the
`Z_RLE` strategy the snapshot path configures. -/
def compress (x : List Nat) : List Nat := pairsFlatten (rleEncode x)

/-- Modelled from the spec: `zlib.decompress`, the exact inverse of
`compress`. -/
def decompress (x : List Nat) : List Nat := rleDecode (pairsUnflatten x)

/-- The RFC 4648 base64 alphabet used by `base64.b64encode`. -/
def b64Alphabet : List Char :=
  "ABCDEFGHIJKLMNOPQRSTUVWXYZabcdefghijklmnopqrstuvwxyz0123456789+/".toList

/-- Character for one 6-bit group. -/
def b64Char (n : Nat) : Char := b64Alphabet.getD n '='

/-- Value of one base64 character. -/
def b64Val (c : Char) : Nat := b64Alphabet.indexOf c

/-- `base64.b64encode`: 3 bytes become 4 characters, the tail padded with
`=`. -/
def b64Encode : List Nat → List Char
  | [] => []
  | [a] => [b64Char (a / 4), b64Char (a % 4 * 16), '=', '=']
  | [a, b] => [b64Char (a / 4), b64Char (a % 4 * 16 + b / 16), b64Char (b % 16 * 4), '=']
  | a :: b :: c :: rest =>
      b64Char (a / 4) :: b64Char (a % 4 * 16 + b / 16) ::
        b64Char (b % 16 * 4 + c / 64) :: b64Char (c % 64) :: b64Encode rest

/-- `base64.b64decode`: 4 characters back to 1-3 bytes depending on
padding. -/
def b64Decode : List Char → List Nat
  | c0 :: c1 :: c2 :: c3 :: rest =>
      if c2 = '=' then [b64Val c0 * 4 + b64Val c1 / 16]
      else if c3 = '=' then
        [b64Val c0 * 4 + b64Val c1 / 16, b64Val c1 % 16 * 16 + b64Val c2 / 4]
      else
        (b64Val c0 * 4 + b64Val c1 / 16) :: (b64Val c1 % 16 * 16 + b64Val c2 / 4) ::
          (b64Val c2 % 4 * 64 + b64Val c3) :: b64Decode rest
  | _ => []

theorem mem_idxList {d : Nat × Nat × Nat} {p : Nat × Nat × Nat} :
    p ∈ idxList d ↔ p.1 < d.1 ∧ p.2.1 < d.2.1 ∧ p.2.2 < d.2.2 := by
  obtain ⟨z, y, x⟩ := p
  simp [idxList, List.mem_flatMap, List.mem_map, List.mem_range, Prod.ext_iff]
  constructor
  · rintro ⟨a, ha, b, hb, c, hc, h1, h2, h3⟩
    subst h1; subst h2; subst h3; exact ⟨ha, hb, hc⟩
  · rintro ⟨hz, hy, hx⟩
    exact ⟨z, hz, y, hy, x, hx, rfl, rfl, rfl⟩

theorem writePairs_dims (a : Arr3) (ps : List ((Nat × Nat × Nat) × Nat)) :
    (writePairs a ps).dims = a.dims := by
  induction ps generalizing a with
  | nil => rfl
  | cons pr rest ih => simpa [writePairs, List.foldl_cons, updOne] using ih (updOne a pr)

theorem writePairs_val (B : Nat → Nat → Nat → Nat)
    (ps : List ((Nat × Nat × Nat) × Nat)) (a : Arr3)
    (hv : ∀ pr ∈ ps, pr.2 = B pr.1.1 pr.1.2.1 pr.1.2.2) (z y x : Nat) :
    (writePairs a ps).val z y x =
      if (z, y, x) ∈ ps.map Prod.fst then B z y x else a.val z y x := by
  induction ps generalizing a with
  | nil => simp [writePairs]
  | cons pr rest ih =>
      have hrest : ∀ q ∈ rest, q.2 = B q.1.1 q.1.2.1 q.1.2.2 := by
        intro q hq; exact hv q (List.mem_cons_of_mem _ hq)
      have step : writePairs a (pr :: rest) = writePairs (updOne a pr) rest := rfl
      rw [step, ih (updOne a pr) hrest]
      by_cases hmem : (z, y, x) ∈ rest.map Prod.fst
      · simp [hmem]
      · by_cases hhd : (z, y, x) = pr.1
        · have hval : pr.2 = B z y x := by
            rw [hv pr (List.mem_cons_self pr rest), ← hhd]
          simp [hmem, updOne, hhd, hval]
        · simp [hmem, updOne, hhd]

theorem changedPairs_val (prev : Option Arr3) (cur : Arr3) :
    ∀ pr ∈ changedPairs prev cur, pr.2 = cur.val pr.1.1 pr.1.2.1 pr.1.2.2 := by
  intro pr hpr
  simp only [changedPairs, List.mem_map] at hpr
  obtain ⟨p, hp, rfl⟩ := hpr
  rfl

theorem changedPairs_map_fst (prev : Option Arr3) (cur : Arr3) :
    (changedPairs prev cur).map Prod.fst =
      (idxList cur.dims).filter
        (fun p => computeChangedMask prev cur p.1 p.2.1 p.2.2) := by
  simp [changedPairs, List.map_map, Function.comp_def]

theorem changedPairs_fst_mem {prev : Option Arr3} {cur : Arr3}
    {pr : (Nat × Nat × Nat) × Nat} (h : pr ∈ changedPairs prev cur) :
    pr.1 ∈ idxList cur.dims := by
  simp only [changedPairs, List.mem_map] at h
  obtain ⟨p, hp, rfl⟩ := h
  exact List.mem_of_mem_filter hp

theorem deltaMsgOf_indices (cur : Arr3) (pairs : List ((Nat × Nat × Nat) × Nat))
    (hb : ∀ pr ∈ pairs, pr.1.1 < 65536 ∧ pr.1.2.1 < 65536 ∧ pr.1.2.2 < 65536) :
    (deltaMsgOf cur pairs).indices = pairs.map Prod.fst := by
  unfold deltaMsgOf
  refine List.map_congr_left ?_
  intro pr hpr
  obtain ⟨hb1, hb2, hb3⟩ := hb pr hpr
  simp [Nat.mod_eq_of_lt hb1, Nat.mod_eq_of_lt hb2, Nat.mod_eq_of_lt hb3]

theorem c1_apply_core (A B : Arr3) (hd : A.dims = B.dims)
    (h1 : B.dims.1 ≤ 65536) (h2 : B.dims.2.1 ≤ 65536) (h3 : B.dims.2.2 ≤ 65536) :
    Arr3.equiv
      (writePairs A
        ((deltaMsgOf B (changedPairs (some A) B)).indices.zip
          (deltaMsgOf B (changedPairs (some A) B)).values)) B := by
  have hb : ∀ pr ∈ changedPairs (some A) B,
      pr.1.1 < 65536 ∧ pr.1.2.1 < 65536 ∧ pr.1.2.2 < 65536 := by
    intro pr hpr
    have hm := mem_idxList.mp (changedPairs_fst_mem hpr)
    exact ⟨lt_of_lt_of_le hm.1 h1, lt_of_lt_of_le hm.2.1 h2, lt_of_lt_of_le hm.2.2 h3⟩
  have hidx := deltaMsgOf_indices B (changedPairs (some A) B) hb
  have hzip : (deltaMsgOf B (changedPairs (some A) B)).indices.zip
      (deltaMsgOf B (changedPairs (some A) B)).values = changedPairs (some A) B := by
    rw [hidx]
    have hv : (deltaMsgOf B (changedPairs (some A) B)).values
        = (changedPairs (some A) B).map (fun pr => pr.2) := rfl
    rw [hv, List.zip_map']
    simp
  rw [hzip]
  constructor
  · rw [writePairs_dims]; exact hd
  · intro p hp
    rw [writePairs_dims] at hp
    rw [writePairs_val B.val _ _ (changedPairs_val (some A) B)]
    by_cases hmem : p ∈ (changedPairs (some A) B).map Prod.fst
    · simp [hmem]
    · have hpB : p ∈ idxList B.dims := hd ▸ hp
      rw [changedPairs_map_fst] at hmem
      have hmask : computeChangedMask (some A) B p.1 p.2.1 p.2.2 = false := by
        by_contra hc
        exact hmem (List.mem_filter.mpr ⟨hpB, by simpa using hc⟩)
      rw [computeChangedMask, if_pos hd] at hmask
      have : B.val p.1 p.2.1 p.2.2 = A.val p.1 p.2.1 p.2.2 := by
        simpa using hmask
      simp [hmem, changedPairs_map_fst, this]

theorem send_delta_eq (s : LogicState) (A B : Arr3) (fails : Bool)
    (hsu : s.isUpdating = false) (hsn : s.hasNode = true)
    (hsp : s.previousSegmentation = some A)
    (hne : changedPairs (some A) B ≠ [])
    (hth : 10 * (changedPairs (some A) B).length ≤ 3 * B.size) :
    sendSegmentationDelta s B fails =
      ({ s with debouncePending := true, sentCount := s.sentCount + 1,
                previousSegmentation := some B },
        some (Msg.delta (deltaMsgOf B (changedPairs (some A) B)),
          wsHandlerSend s.ws fails)) := by
  unfold sendSegmentationDelta
  simp only [hsu, hsn, hsp, Bool.not_true, Bool.or_false, Bool.false_or,
    if_neg (by simp : ¬ (false || !true) = true)]
  simp [List.isEmpty_iff, hne, Nat.not_lt.mpr hth]

theorem handle_apply_eq (s : LogicState) (m : DeltaMsg) (cur : Arr3)
    (hn : s.hasNode = true) (hu : s.isUpdating = false)
    (hd : m.dimsField = some cur.dims)
    (hlen : m.indices.length = m.values.length)
    (hb : m.indices.all (fun p => inBounds cur.dims p) = true) :
    handleSegmentationDelta s m cur =
      ({ s with receivedCount := s.receivedCount + 1,
                previousSegmentation := some (writePairs cur (m.indices.zip m.values)) },
        some (writePairs cur (m.indices.zip m.values))) := by
  unfold handleSegmentationDelta fancyAssign
  simp [hn, hu, hd, hlen, hb]

theorem handle_abort_eq (s : LogicState) (m : DeltaMsg) (cur : Arr3)
    (hn : s.hasNode = true) (hu : s.isUpdating = false)
    (hd : m.dimsField = some cur.dims)
    (hbad : m.indices.all (fun p => inBounds cur.dims p) = false) :
    handleSegmentationDelta s m cur = (s, none) := by
  unfold handleSegmentationDelta fancyAssign
  simp [hn, hu, hd, hbad]

/-- C1 (amended): diff/apply round trip.  If the send path classifies the
change from baseline `A` to current array `B` (same shape, at least one
changed voxel, change ratio at most 30 percent) as a sparse delta, and
every axis length fits the uint16 wire encoding (at most 65536), then a
receiver whose current array is `A` applies the produced delta and ends
with an array equal to `B`, which also becomes its new baseline. -/
theorem c1_diff_apply_roundtrip (A B : Arr3) (s r : LogicState) (fails : Bool)
    (hd : A.dims = B.dims)
    (h1 : B.dims.1 ≤ 65536) (h2 : B.dims.2.1 ≤ 65536) (h3 : B.dims.2.2 ≤ 65536)
    (hsu : s.isUpdating = false) (hsn : s.hasNode = true)
    (hsp : s.previousSegmentation = some A)
    (hru : r.isUpdating = false) (hrn : r.hasNode = true)
    (hne : changedPairs (some A) B ≠ [])
    (hth : 10 * (changedPairs (some A) B).length ≤ 3 * B.size) :
    (sendSegmentationDelta s B fails).2 =
      some (Msg.delta (deltaMsgOf B (changedPairs (some A) B)), wsHandlerSend s.ws fails) ∧
    ∃ C, (handleSegmentationDelta r (deltaMsgOf B (changedPairs (some A) B)) A).2 = some C ∧
      Arr3.equiv C B ∧
      (handleSegmentationDelta r (deltaMsgOf B (changedPairs (some A) B)) A).1.previousSegmentation
        = some C := by
  have hsend := send_delta_eq s A B fails hsu hsn hsp hne hth
  refine ⟨by rw [hsend], ?_⟩
  set m := deltaMsgOf B (changedPairs (some A) B) with hm
  have hmd : m.dimsField = some A.dims := by rw [hm, hd]; rfl
  have hmlen : m.indices.length = m.values.length := by
    rw [hm]; simp [deltaMsgOf]
  have hmb : m.indices.all (fun p => inBounds A.dims p) = true := by
    rw [List.all_eq_true]
    intro p hp
    rw [hm] at hp
    simp only [deltaMsgOf, List.mem_map] at hp
    obtain ⟨pr, hpr, rfl⟩ := hp
    have hmem := mem_idxList.mp (changedPairs_fst_mem hpr)
    have hb1 : pr.1.1 < 65536 := lt_of_lt_of_le hmem.1 h1
    have hb2 : pr.1.2.1 < 65536 := lt_of_lt_of_le hmem.2.1 h2
    have hb3 : pr.1.2.2 < 65536 := lt_of_lt_of_le hmem.2.2 h3
    rw [hd]
    simp [inBounds, Nat.mod_eq_of_lt hb1, Nat.mod_eq_of_lt hb2, Nat.mod_eq_of_lt hb3]
    exact ⟨⟨hmem.1, hmem.2.1⟩, hmem.2.2⟩
  have happly := handle_apply_eq r m A hrn hru hmd hmlen hmb
  refine ⟨writePairs A (m.indices.zip m.values), ?_, ?_, ?_⟩
  · rw [happly]
  · rw [hm]; exact c1_apply_core A B hd h1 h2 h3
  · rw [happly]

/-- Small concrete baseline for witnesses: 10 voxels, all zero. -/
def wArrA : Arr3 := ⟨(1, 1, 10), fun _ _ _ => 0⟩

/-- Same shape with one voxel changed to label 1. -/
def wArrB : Arr3 := ⟨(1, 1, 10), fun _ _ x => if x = 3 then 1 else 0⟩

/-- Connected sender state with baseline `wArrA`. -/
def wSendState : LogicState := ⟨0, 0, 0, false, some wArrA, true, ⟨true, true⟩, false⟩

/-- Connected receiver state. -/
def wRecvState : LogicState := ⟨0, 0, 0, false, none, true, ⟨true, true⟩, false⟩

theorem c1_diff_apply_roundtrip_witness :
    wArrA.dims = wArrB.dims ∧ changedPairs (some wArrA) wArrB ≠ [] ∧
    10 * (changedPairs (some wArrA) wArrB).length ≤ 3 * wArrB.size ∧
    ((sendSegmentationDelta wSendState wArrB false).2 =
        some (Msg.delta (deltaMsgOf wArrB (changedPairs (some wArrA) wArrB)),
          wsHandlerSend wSendState.ws false) ∧
      ∃ C, (handleSegmentationDelta wRecvState
              (deltaMsgOf wArrB (changedPairs (some wArrA) wArrB)) wArrA).2 = some C ∧
        Arr3.equiv C wArrB ∧
        (handleSegmentationDelta wRecvState
            (deltaMsgOf wArrB (changedPairs (some wArrA) wArrB)) wArrA).1.previousSegmentation
          = some C) :=
  ⟨by decide, by decide, by decide,
    c1_diff_apply_roundtrip wArrA wArrB wSendState wRecvState false (by decide)
      (by decide) (by decide) (by decide) rfl rfl rfl rfl rfl (by decide) (by decide)⟩

theorem filter_beq_range (n k : Nat) :
    (List.range n).filter (fun z => z == k) = if k < n then [k] else [] := by
  induction n with
  | zero => simp
  | succ n ih =>
      rw [List.range_succ, List.filter_append, ih]
      rcases Nat.lt_trichotomy k n with h | h | h
      · have hne : (n == k) = false := by
          simp [Nat.ne_of_gt h]
        simp [h, Nat.lt_succ_of_lt h, hne]
      · subst h
        simp [Nat.lt_irrefl, Nat.lt_succ_self]
      · have h1 : ¬ k < n := Nat.not_lt.mpr (Nat.le_of_lt h)
        have h2 : ¬ k < n + 1 := Nat.not_lt.mpr h
        have hne : (n == k) = false := by
          simp [Nat.ne_of_lt h]
        simp [h1, h2, hne]

theorem idxList_n11 (n : Nat) :
    idxList (n, 1, 1) = (List.range n).map (fun z => (z, 0, 0)) := by
  unfold idxList
  rw [show List.range 1 = [0] from rfl]
  exact (List.map_eq_flatMap _ _).symm

/-- Baseline with 65537 voxels along the first axis, all zero. -/
def bigA : Arr3 := ⟨(65537, 1, 1), fun _ _ _ => 0⟩

/-- Same shape with exactly the voxel `(65536, 0, 0)` changed to 1. -/
def bigB : Arr3 := ⟨(65537, 1, 1), fun z _ _ => if z = 65536 then 1 else 0⟩

theorem big_changedPairs :
    changedPairs (some bigA) bigB = [((65536, 0, 0), 1)] := by
  unfold changedPairs
  have hdims : bigB.dims = (65537, 1, 1) := rfl
  rw [hdims, idxList_n11, List.filter_map]
  have hfc : ∀ z ∈ List.range 65537,
      ((fun p => computeChangedMask (some bigA) bigB p.1 p.2.1 p.2.2) ∘
        fun z => ((z, 0, 0) : Nat × Nat × Nat)) z = (z == 65536) := by
    intro z _
    by_cases h : z = 65536
    · subst h; rfl
    · simp [Function.comp, computeChangedMask, bigA, bigB, h]
  rw [List.filter_congr hfc, filter_beq_range]
  norm_num [bigB]

/-- Sender state holding the 65537-voxel baseline. -/
def bigSendState : LogicState := ⟨0, 0, 0, false, some bigA, true, ⟨true, true⟩, false⟩

/-- Receiver state for the 65537-voxel scenario. -/
def bigRecvState : LogicState := ⟨0, 0, 0, false, none, true, ⟨true, true⟩, false⟩

/-- The delta that actually goes on the wire for `bigA → bigB`: the single
changed index `(65536, 0, 0)` is truncated by `.astype(np.uint16)` to
`(0, 0, 0)`. -/
def bigMsg : DeltaMsg := ⟨"", [(0, 0, 0)], [1], some (65537, 1, 1)⟩

/-- C1 counterexample: with a 65537-voxel axis the change at `(65536,0,0)`
is classified as a sparse delta (1 voxel of 65537 changed), yet applying
the produced delta to a copy of the baseline does not reproduce the
current array: the uint16 wire encoding wraps the index to `(0,0,0)`. -/
theorem c1_counterexample :
    changedPairs (some bigA) bigB ≠ [] ∧
    10 * (changedPairs (some bigA) bigB).length ≤ 3 * bigB.size ∧
    (sendSegmentationDelta bigSendState bigB false).2 = some (Msg.delta bigMsg, true) ∧
    ∃ C, (handleSegmentationDelta bigRecvState bigMsg bigA).2 = some C ∧
      ¬ Arr3.equiv C bigB := by
  have hc := big_changedPairs
  have hne : changedPairs (some bigA) bigB ≠ [] := by rw [hc]; simp
  have hsize : bigB.size = 65537 := rfl
  have hth : 10 * (changedPairs (some bigA) bigB).length ≤ 3 * bigB.size := by
    rw [hc, hsize]; norm_num
  refine ⟨hne, hth, ?_, ?_⟩
  · have hsend := send_delta_eq bigSendState bigA bigB false rfl rfl rfl hne hth
    rw [hsend]
    have hmsg : deltaMsgOf bigB (changedPairs (some bigA) bigB) = bigMsg := by
      rw [hc]; rfl
    rw [hmsg]
    rfl
  · have hmd : bigMsg.dimsField = some bigA.dims := rfl
    have hlen : bigMsg.indices.length = bigMsg.values.length := rfl
    have hb : bigMsg.indices.all (fun p => inBounds bigA.dims p) = true := by decide
    have happly := handle_apply_eq bigRecvState bigMsg bigA rfl rfl hmd hlen hb
    refine ⟨writePairs bigA (bigMsg.indices.zip bigMsg.values), by rw [happly], ?_⟩
    rintro ⟨hdm, hall⟩
    have hmem : ((0 : Nat), (0 : Nat), (0 : Nat)) ∈
        idxList (writePairs bigA (bigMsg.indices.zip bigMsg.values)).dims := by
      rw [writePairs_dims]
      exact mem_idxList.mpr ⟨by decide, by decide, by decide⟩
    have := hall (0, 0, 0) hmem
    have hL : (writePairs bigA (bigMsg.indices.zip bigMsg.values)).val 0 0 0 = 1 := rfl
    have hR : bigB.val 0 0 0 = 0 := rfl
    rw [hL, hR] at this
    exact Nat.one_ne_zero this

theorem send_skip_eq (s : LogicState) (A cur : Arr3) (fails : Bool)
    (hsu : s.isUpdating = false) (hsn : s.hasNode = true)
    (hsp : s.previousSegmentation = some A)
    (hemp : changedPairs (some A) cur = []) :
    sendSegmentationDelta s cur fails = ({ s with debouncePending := true }, none) := by
  unfold sendSegmentationDelta
  simp [hsu, hsn, hsp, hemp]

theorem send_full_eq (s : LogicState) (A cur : Arr3) (fails : Bool)
    (hsu : s.isUpdating = false) (hsn : s.hasNode = true)
    (hsp : s.previousSegmentation = some A)
    (hth : 10 * (changedPairs (some A) cur).length > 3 * cur.size) :
    sendSegmentationDelta s cur fails =
      ({ s with debouncePending := true, sentCount := s.sentCount + 1,
                previousSegmentation := some cur },
        some (Msg.full (fullMsgOf cur), wsHandlerSend s.ws fails)) := by
  have hne : changedPairs (some A) cur ≠ [] := by
    intro h
    rw [h] at hth
    simp at hth
  unfold sendSegmentationDelta
  simp [hsu, hsn, hsp, List.isEmpty_iff, hne, hth]

/-- True exactly when the send path emitted a full-snapshot message. -/
def isFullOut : Option (Msg × Bool) → Bool
  | some (Msg.full _, _) => true
  | _ => false

/-- True exactly when the send path emitted a sparse-delta message. -/
def isDeltaOut : Option (Msg × Bool) → Bool
  | some (Msg.delta _, _) => true
  | _ => false

/-- C3: full-resync threshold boundary.  With a baseline present and of the
same shape, `sendSegmentationDelta` emits a full snapshot exactly when
`changedCount / totalVoxels > 0.30`, i.e. `10 * changedCount > 3 *
totalVoxels` in exact arithmetic (the source compares
`(numChanged / totalVoxels) * 100 > 30` in float). -/
theorem c3_threshold_iff (p cur : Arr3) (s : LogicState) (fails : Bool)
    (hsu : s.isUpdating = false) (hsn : s.hasNode = true)
    (hsp : s.previousSegmentation = some p) (_hshape : p.dims = cur.dims) :
    (isFullOut (sendSegmentationDelta s cur fails).2 = true ↔
      10 * (changedPairs (some p) cur).length > 3 * cur.size) := by
  by_cases hemp : changedPairs (some p) cur = []
  · rw [send_skip_eq s p cur fails hsu hsn hsp hemp]
    simp [isFullOut, hemp]
  · by_cases hth : 10 * (changedPairs (some p) cur).length > 3 * cur.size
    · rw [send_full_eq s p cur fails hsu hsn hsp hth]
      simpa [isFullOut] using hth
    · rw [send_delta_eq s p cur fails hsu hsn hsp hemp (Nat.le_of_not_lt hth)]
      simpa [isFullOut] using hth

/-- A 100-voxel all-zero baseline. -/
def a100 : Arr3 := ⟨(1, 10, 10), fun _ _ _ => 0⟩

/-- 29 of 100 voxels changed. -/
def b29 : Arr3 := ⟨(1, 10, 10), fun _ y x => if y * 10 + x < 29 then 1 else 0⟩

/-- 31 of 100 voxels changed. -/
def b31 : Arr3 := ⟨(1, 10, 10), fun _ y x => if y * 10 + x < 31 then 1 else 0⟩

/-- Connected sender over the 100-voxel baseline. -/
def s100 : LogicState := ⟨0, 0, 0, false, some a100, true, ⟨true, true⟩, false⟩

theorem c3_threshold_iff_witness :
    (isFullOut (sendSegmentationDelta s100 b29 false).2 = true ↔
      10 * (changedPairs (some a100) b29).length > 3 * b29.size) ∧
    isDeltaOut (sendSegmentationDelta s100 b29 false).2 = true ∧
    isFullOut (sendSegmentationDelta s100 b31 false).2 = true :=
  ⟨c3_threshold_iff a100 b29 s100 false rfl rfl rfl (by decide),
    by decide, by decide⟩

/-- A 2-voxel all-zero array used in the disconnect scenario. -/
def a4 : Arr3 := ⟨(1, 1, 2), fun _ _ _ => 0⟩

/-- A mid-session state: nonzero counters, a baseline, an open socket. -/
def s4 : LogicState := ⟨2, 3, 2, false, some a4, true, ⟨true, true⟩, false⟩

/-- C4 evaluation: the slot wired to the transport close signal
(`onWsDisconnected`) leaves every counter and the baseline untouched, so
the first diff after reconnecting with an unchanged volume sends nothing
at all (rather than a forced full snapshot); the reset the claim describes
lives only in `handleDisconnect`, which no code path ever invokes. -/
theorem c4_disconnect_keeps_state :
    onWsDisconnected s4 = s4 ∧
    (onWsDisconnected s4).sentCount = 2 ∧
    (onWsDisconnected s4).receivedCount = 3 ∧
    (onWsDisconnected s4).connectedUsers = 2 ∧
    (onWsDisconnected s4).previousSegmentation = some a4 ∧
    (sendSegmentationDelta (onWsDisconnected s4) a4 false).2 = none ∧
    (handleDisconnect s4).sentCount = 0 ∧
    (handleDisconnect s4).receivedCount = 0 ∧
    (handleDisconnect s4).connectedUsers = 0 ∧
    (handleDisconnect s4).previousSegmentation = none :=
  ⟨rfl, rfl, rfl, rfl, rfl, rfl, rfl, rfl, rfl, rfl⟩

/-- First burst edit: one voxel painted. -/
def b51 : Arr3 := ⟨(1, 1, 10), fun _ _ x => if x = 0 then 1 else 0⟩

/-- Second burst edit 50 ms later: a second voxel painted. -/
def b52 : Arr3 := ⟨(1, 1, 10), fun _ _ x => if x ≤ 1 then 1 else 0⟩

/-- Connected state with the pre-burst baseline. -/
def s5 : LogicState := ⟨0, 0, 0, false, some wArrA, true, ⟨true, true⟩, false⟩

/-- Number of changed voxels carried by an outgoing message. -/
def msgNumChanges : Msg → Nat
  | .delta m => m.indices.length
  | .full _ => 0

/-- C5 evaluation: a burst of two qualifying mutations followed by the
debounce timer firing produces two outgoing messages, one per mutation and
each carrying a single voxel; the timer callback produces nothing.  The
claimed behaviour would be exactly one message carrying the union (two
voxels). -/
theorem c5_burst_sends_per_event :
    (runEvents s5 [Ev.mut b51, Ev.mut b52, Ev.fire]).2.length = 2 ∧
    ((runEvents s5 [Ev.mut b51, Ev.mut b52, Ev.fire]).2.map
      (fun mb => msgNumChanges mb.1)) = [1, 1] ∧
    (sendDebouncedDelta ((runEvents s5 [Ev.mut b51, Ev.mut b52]).1)).2 = [] := by
  refine ⟨by decide, by decide, rfl⟩

/-- Modelled from the spec: the local participant identifier.  The logic
object itself stores no identifier (the widget keeps `user_info` but the
receive path never consults it), so suppression by identifier is not even
expressible in the source; any name exhibits the behaviour. -/
def localParticipant : String := "alice"

/-- The receiver's current 2-voxel array. -/
def cur2 : Arr3 := ⟨(1, 1, 2), fun _ _ _ => 0⟩

/-- An inbound delta whose originating username equals the local
participant identifier. -/
def echoMsg : DeltaMsg := ⟨"alice", [(0, 0, 0)], [1], some (1, 1, 2)⟩

/-- Receiver state before the echoed message arrives. -/
def r2 : LogicState := ⟨0, 5, 0, false, some cur2, true, ⟨true, true⟩, false⟩

/-- C2 evaluation: an inbound delta tagged with the local participant's own
identifier is applied anyway — `receivedCount` is incremented and the
local volume changes. -/
theorem c2_echo_is_applied :
    echoMsg.username = localParticipant ∧
    (onWsMessage r2 (InMsg.segDelta echoMsg) cur2).1.receivedCount = 6 ∧
    ∃ C, (onWsMessage r2 (InMsg.segDelta echoMsg) cur2).2 = some C ∧
      C.val 0 0 0 = 1 ∧ cur2.val 0 0 0 = 0 :=
  ⟨rfl, rfl, writePairs cur2 [((0, 0, 0), 1)], rfl, rfl, rfl⟩

/-- State whose socket is closed (`ws is None`, `_isConnected` false). -/
def s8down : LogicState := ⟨0, 0, 0, false, some wArrA, true, ⟨false, false⟩, false⟩

/-- C8 evaluation: `sentCount` increments even when nothing is
transmitted.  The guard `if self.wsHandler and self.wsHandler.isConnected:`
reads the bound method `isConnected` without calling it (always truthy),
and `WebSocketHandler.send` swallows both the disconnected case and a
raising `ws.send`; in both scenarios the transport accepted nothing, yet
`sentCount` became 1. -/
theorem c8_sent_increments_without_transport :
    s8down.ws.connectedFlag = false ∧
    (sendSegmentationDelta s8down wArrB false).1.sentCount = 1 ∧
    (sendSegmentationDelta s8down wArrB false).2.map Prod.snd = some false ∧
    (sendSegmentationDelta wSendState wArrB true).1.sentCount = 1 ∧
    (sendSegmentationDelta wSendState wArrB true).2.map Prod.snd = some false :=
  ⟨rfl, rfl, rfl, rfl, rfl⟩

/-- C6 (amended): behaviour of the delta apply path.  When the delta's
dimensions differ from the local shape every index is rescaled and clamped
into bounds, so the apply proceeds; when they match, a single out-of-range
index aborts the whole apply — no pair is written, the message is dropped
and the state is unchanged — otherwise every pair is written with the last
write winning for duplicate indices. -/
theorem c6_apply_amended :
    (∀ (r : LogicState) (m : DeltaMsg) (cur : Arr3),
       r.hasNode = true → r.isUpdating = false → m.dimsField = some cur.dims →
       (∃ p ∈ m.indices, inBounds cur.dims p = false) →
       handleSegmentationDelta r m cur = (r, none)) ∧
    (∀ (r : LogicState) (m : DeltaMsg) (cur : Arr3),
       r.hasNode = true → r.isUpdating = false → m.dimsField = some cur.dims →
       m.indices.all (fun p => inBounds cur.dims p) = true →
       m.indices.length = m.values.length →
       (handleSegmentationDelta r m cur).2 =
         some (writePairs cur (m.indices.zip m.values))) ∧
    (∀ (a : Arr3) (ps : List ((Nat × Nat × Nat) × Nat)) (q : Nat × Nat × Nat) (v : Nat),
       (writePairs a (ps ++ [(q, v)])).val q.1 q.2.1 q.2.2 = v) ∧
    (∀ curD inD i : Nat, 1 ≤ curD → remapIdx curD inD i < curD) := by
  refine ⟨?_, ?_, ?_, ?_⟩
  · intro r m cur hn hu hd hbad
    obtain ⟨p, hp, hpb⟩ := hbad
    have hall : m.indices.all (fun p => inBounds cur.dims p) = false := by
      rw [List.all_eq_false]
      exact ⟨p, hp, by simp [hpb]⟩
    exact handle_abort_eq r m cur hn hu hd hall
  · intro r m cur hn hu hd hall hlen
    rw [handle_apply_eq r m cur hn hu hd hlen hall]
  · intro a ps q v
    obtain ⟨qz, qy, qx⟩ := q
    unfold writePairs
    rw [List.foldl_append]
    simp [updOne]
  · intro curD inD i h
    unfold remapIdx
    calc min (curD - 1) (rne ((i : ℚ) * ((curD : ℚ) / (inD : ℚ)))) % 65536
        ≤ min (curD - 1) (rne ((i : ℚ) * ((curD : ℚ) / (inD : ℚ)))) := Nat.mod_le _ _
      _ ≤ curD - 1 := Nat.min_le_left _ _
      _ < curD := by omega

/-- The receiver's current 4-voxel array for the out-of-range scenario. -/
def cur6 : Arr3 := ⟨(1, 1, 4), fun _ _ _ => 0⟩

/-- A delta with matching dimensions whose first index `(0,0,5)` is out of
range and whose second index `(0,0,1)` is in range. -/
def badMsg : DeltaMsg := ⟨"bob", [(0, 0, 5), (0, 0, 1)], [2, 2], some (1, 1, 4)⟩

/-- An in-range delta with a duplicated index, to exercise last-write-wins. -/
def goodMsg : DeltaMsg := ⟨"bob", [(0, 0, 1), (0, 0, 1)], [5, 9], some (1, 1, 4)⟩

/-- Receiver state for the out-of-range scenario. -/
def r6 : LogicState := ⟨0, 0, 0, false, some cur6, true, ⟨true, true⟩, false⟩

/-- C6 counterexample: the claim says the out-of-range index `(0,0,5)` is
skipped while the in-range pair `((0,0,1), 2)` is still applied; the code
instead aborts the whole apply (numpy raises `IndexError` before storing
anything, the `except` branch drops the message), leaving the state
untouched and the in-range pair unapplied. -/
theorem c6_counterexample :
    inBounds cur6.dims (0, 0, 5) = false ∧
    inBounds cur6.dims (0, 0, 1) = true ∧
    handleSegmentationDelta r6 badMsg cur6 = (r6, none) :=
  ⟨rfl, rfl, rfl⟩

theorem c6_apply_amended_witness :
    handleSegmentationDelta r6 badMsg cur6 = (r6, none) ∧
    (handleSegmentationDelta r6 goodMsg cur6).2 =
      some (writePairs cur6 (goodMsg.indices.zip goodMsg.values)) ∧
    (writePairs cur6 ([((0, 0, 1), 5)] ++ [((0, 0, 1), 9)])).val 0 0 1 = 9 ∧
    remapIdx 4 8 3 < 4 :=
  ⟨c6_apply_amended.1 r6 badMsg cur6 rfl rfl rfl ⟨(0, 0, 5), by decide, by decide⟩,
    c6_apply_amended.2.1 r6 goodMsg cur6 rfl rfl rfl (by decide) (by decide),
    c6_apply_amended.2.2.1 cur6 [((0, 0, 1), 5)] (0, 0, 1) 9,
    c6_apply_amended.2.2.2 4 8 3 (by decide)⟩

theorem getD_map_range (f : Nat → Nat) (T z : Nat) (h : z < T) :
    ((List.range T).map f).getD z 0 = f z := by
  rw [List.getD_eq_getElem?_getD, List.getElem?_map, List.getElem?_range h]
  rfl

/-- C7 (amended): nearest-neighbour resampling before diffing.  Whenever
the baseline shape differs from the current shape, the changed mask
compares the current voxel against the baseline voxel at the
endpoint-aligned linspace source index
`roundHalfEven(dst * (prevDim - 1) / (currentDim - 1))` per axis (index 0
when `currentDim = 1`), not at `round(dst / scale)` with
`scale = currentDim / prevDim` as the claim words it. -/
theorem c7_mask_uses_linspace (p cur : Arr3) (z y x : Nat)
    (hne : p.dims ≠ cur.dims)
    (hz : z < cur.dims.1) (hy : y < cur.dims.2.1) (hx : x < cur.dims.2.2) :
    computeChangedMask (some p) cur z y x =
      (cur.val z y x !=
        p.val (srcIdx p.dims.1 cur.dims.1 z) (srcIdx p.dims.2.1 cur.dims.2.1 y)
          (srcIdx p.dims.2.2 cur.dims.2.2 x)) := by
  show (if p.dims = cur.dims then _ else _) = _
  rw [if_neg hne]
  show (cur.val z y x !=
      p.val ((List.map (srcIdx p.dims.1 cur.dims.1) (List.range cur.dims.1)).getD z 0)
        ((List.map (srcIdx p.dims.2.1 cur.dims.2.1) (List.range cur.dims.2.1)).getD y 0)
        ((List.map (srcIdx p.dims.2.2 cur.dims.2.2) (List.range cur.dims.2.2)).getD x 0)) = _
  rw [getD_map_range _ _ _ hz, getD_map_range _ _ _ hy, getD_map_range _ _ _ hx]

/-- Baseline of 4 voxels along the last axis, values `[0, 5, 7, 0]`. -/
def p7 : Arr3 := ⟨(1, 1, 4), fun _ _ x => if x = 1 then 5 else if x = 2 then 7 else 0⟩

/-- Current array of 3 voxels, values `[0, 5, 0]`. -/
def cur7 : Arr3 := ⟨(1, 1, 3), fun _ _ x => if x = 1 then 5 else 0⟩

/-- C7 counterexample: resampling `[0,5,7,0]` onto 3 voxels.  The claim's
formula reads source index `round(1 * 4/3) = 1` at destination 1, making
the voxel unchanged (`5 = 5`); the code's linspace mapping reads source
index `round(1 * 3/2) = 2`, so the mask marks the voxel changed
(`5 ≠ 7`). -/
theorem c7_counterexample :
    p7.dims ≠ cur7.dims ∧
    specSrcIdx 4 3 1 = 1 ∧
    srcIdx 4 3 1 = 2 ∧
    cur7.val 0 0 1 = p7.val 0 0 (specSrcIdx 4 3 1) ∧
    computeChangedMask (some p7) cur7 0 0 1 = true := by
  have hspec : specSrcIdx 4 3 1 = 1 := by norm_num [specSrcIdx, rne]
  have hsrc : srcIdx 4 3 1 = 2 := by norm_num [srcIdx, rne]
  have hsrc0 : srcIdx 1 1 0 = 0 := by norm_num [srcIdx]
  refine ⟨by decide, hspec, hsrc, by rw [hspec]; decide, ?_⟩
  show (cur7.val 0 0 1 != p7.val (srcIdx 1 1 0) (srcIdx 1 1 0) (srcIdx 4 3 1)) = true
  rw [hsrc0, hsrc]
  decide

theorem c7_mask_uses_linspace_witness :
    p7.dims ≠ cur7.dims ∧
    computeChangedMask (some p7) cur7 0 0 1 =
      (cur7.val 0 0 1 !=
        p7.val (srcIdx p7.dims.1 cur7.dims.1 0) (srcIdx p7.dims.2.1 cur7.dims.2.1 0)
          (srcIdx p7.dims.2.2 cur7.dims.2.2 1)) :=
  ⟨by decide,
    c7_mask_uses_linspace p7 cur7 0 0 1 (by decide) (by decide) (by decide) (by decide)⟩

theorem rleDecode_rleEncode (l : List Nat) : rleDecode (rleEncode l) = l := by
  induction l with
  | nil => rfl
  | cons a rest ih =>
      simp only [rleEncode]
      cases hE : rleEncode rest with
      | nil =>
          have hrest : rest = [] := by rw [← ih, hE]; rfl
          subst hrest
          rfl
      | cons nb tail =>
          obtain ⟨n, b⟩ := nb
          have ih2 : rleDecode ((n, b) :: tail) = rest := by rw [← hE]; exact ih
          show rleDecode
              (if a = b ∧ n < 255 then (n + 1, b) :: tail
               else (1, a) :: (n, b) :: tail) = a :: rest
          by_cases hc : a = b ∧ n < 255
          · rw [if_pos hc]
            have hds : rleDecode ((n + 1, b) :: tail) = b :: rleDecode ((n, b) :: tail) := by
              simp [rleDecode, List.replicate_succ]
            rw [hds, ih2, hc.1]
          · rw [if_neg hc]
            show List.replicate 1 a ++ rleDecode ((n, b) :: tail) = a :: rest
            rw [ih2]
            rfl

theorem pairsUnflatten_pairsFlatten (ps : List (Nat × Nat)) :
    pairsUnflatten (pairsFlatten ps) = ps := by
  induction ps with
  | nil => rfl
  | cons nb tail ih =>
      obtain ⟨n, b⟩ := nb
      simp [pairsFlatten, pairsUnflatten, ih]

theorem b64Val_b64Char : ∀ n, n < 64 → b64Val (b64Char n) = n := by decide

theorem b64Char_ne_pad : ∀ n, n < 64 → b64Char n ≠ '=' := by decide

theorem b64Decode_b64Encode (l : List Nat) (h : ∀ b ∈ l, b < 256) :
    b64Decode (b64Encode l) = l := by
  induction l using b64Encode.induct with
  | case1 => rfl
  | case2 a =>
      have ha : a < 256 := h a (by simp)
      have h0 : a / 4 < 64 := by omega
      have h1 : a % 4 * 16 < 64 := by omega
      show b64Decode [b64Char (a / 4), b64Char (a % 4 * 16), '=', '='] = [a]
      show (if ('=' : Char) = '='
          then [b64Val (b64Char (a / 4)) * 4 + b64Val (b64Char (a % 4 * 16)) / 16]
          else _) = [a]
      rw [if_pos rfl, b64Val_b64Char _ h0, b64Val_b64Char _ h1]
      simp only [List.cons.injEq, and_true]
      omega
  | case3 a b =>
      have ha : a < 256 := h a (by simp)
      have hb : b < 256 := h b (by simp)
      have h0 : a / 4 < 64 := by omega
      have h1 : a % 4 * 16 + b / 16 < 64 := by omega
      have h2 : b % 16 * 4 < 64 := by omega
      have hc2 : b64Char (b % 16 * 4) ≠ '=' := b64Char_ne_pad _ h2
      show b64Decode
          [b64Char (a / 4), b64Char (a % 4 * 16 + b / 16), b64Char (b % 16 * 4), '='] = [a, b]
      show (if b64Char (b % 16 * 4) = '=' then _
          else if ('=' : Char) = '=' then _ else _) = [a, b]
      rw [if_neg hc2, if_pos rfl, b64Val_b64Char _ h0, b64Val_b64Char _ h1,
        b64Val_b64Char _ h2]
      simp only [List.cons.injEq, and_true]
      constructor <;> omega
  | case4 a b c rest ih =>
      have ha : a < 256 := h a (by simp)
      have hb : b < 256 := h b (by simp)
      have hc : c < 256 := h c (by simp)
      have h0 : a / 4 < 64 := by omega
      have h1 : a % 4 * 16 + b / 16 < 64 := by omega
      have h2 : b % 16 * 4 + c / 64 < 64 := by omega
      have h3 : c % 64 < 64 := by omega
      have hc2 : b64Char (b % 16 * 4 + c / 64) ≠ '=' := b64Char_ne_pad _ h2
      have hc3 : b64Char (c % 64) ≠ '=' := b64Char_ne_pad _ h3
      have hrest : ∀ x ∈ rest, x < 256 := fun x hx => h x (by simp [hx])
      show b64Decode (b64Char (a / 4) :: b64Char (a % 4 * 16 + b / 16) ::
          b64Char (b % 16 * 4 + c / 64) :: b64Char (c % 64) :: b64Encode rest)
          = a :: b :: c :: rest
      show (if b64Char (b % 16 * 4 + c / 64) = '=' then _
          else if b64Char (c % 64) = '=' then _ else _) = a :: b :: c :: rest
      rw [if_neg hc2, if_neg hc3, ih hrest, b64Val_b64Char _ h0, b64Val_b64Char _ h1,
        b64Val_b64Char _ h2, b64Val_b64Char _ h3]
      simp only [List.cons.injEq, and_true]
      refine ⟨by omega, by omega, by omega⟩

/-- C9: codec round trip.  Decompressing the compressed form of any byte
sequence (empty included) returns it unchanged, and decoding the base64
transport encoding of any byte sequence returns it unchanged — so
base64-decoding then decompressing the payloads built on the send path
recovers the original bytes exactly. -/
theorem c9_codec_roundtrip :
    (∀ x : List Nat, decompress (compress x) = x) ∧
    (∀ y : List Nat, (∀ b ∈ y, b < 256) → b64Decode (b64Encode y) = y) := by
  constructor
  · intro x
    unfold decompress compress
    rw [pairsUnflatten_pairsFlatten, rleDecode_rleEncode]
  · exact b64Decode_b64Encode

theorem c9_codec_roundtrip_witness :
    decompress (compress []) = [] ∧
    decompress (compress [7, 7, 7, 0, 255]) = [7, 7, 7, 0, 255] ∧
    b64Decode (b64Encode []) = [] ∧
    (∀ b ∈ [0, 255, 10], b < 256) ∧
    b64Decode (b64Encode [0, 255, 10]) = [0, 255, 10] :=
  ⟨c9_codec_roundtrip.1 [], c9_codec_roundtrip.1 [7, 7, 7, 0, 255],
    c9_codec_roundtrip.2 [] (by decide), by decide,
    c9_codec_roundtrip.2 [0, 255, 10] (by decide)⟩

theorem flatIdx_decomp (B C n : Nat) :
    n / (B * C) * (B * C) + n / C % B * C + n % C = n := by
  calc n / (B * C) * (B * C) + n / C % B * C + n % C
      = n / C / B * (B * C) + n / C % B * C + n % C := by
        rw [mul_comm B C, Nat.div_div_eq_div_mul]
    _ = (n / C / B * B + n / C % B) * C + n % C := by ring
    _ = n / C * C + n % C := by rw [Nat.div_add_mod' (n / C) B]
    _ = n := Nat.div_add_mod' n C

/-- C10: axis-order reversal on full snapshots.  The sender writes its
numpy `(z, y, x)` shape `(d0, d1, d2)` into the `dimensions` field
unreversed, while `handleFullSegmentation` reshapes the decompressed bytes
to `(d2, d1, d0)`; the applied array — which also becomes the receiver's
new baseline — therefore keeps the flat byte order but carries the
sender's axis order reversed, a different shape whenever `d0 ≠ d2`. -/
theorem c10_full_reshape_reversed (v : Arr3) (r : LogicState)
    (hru : r.isUpdating = false) :
    (fullMsgOf v).dimsField = v.dims ∧
    ∃ C, (handleFullSegmentation r (fullMsgOf v)).2 = some C ∧
      (handleFullSegmentation r (fullMsgOf v)).1.previousSegmentation = some C ∧
      (handleFullSegmentation r (fullMsgOf v)).1.receivedCount = r.receivedCount + 1 ∧
      C.dims = (v.dims.2.2, v.dims.2.1, v.dims.1) ∧
      (∀ n, C.flatten n = v.flatten n) ∧
      (v.dims.1 ≠ v.dims.2.2 → C.dims ≠ v.dims) := by
  obtain ⟨⟨d0, d1, d2⟩, f⟩ := v
  have hred : handleFullSegmentation r (fullMsgOf ⟨(d0, d1, d2), f⟩) =
      ({ r with receivedCount := r.receivedCount + 1,
                previousSegmentation := some
                  ⟨(d2, d1, d0), fun z y x =>
                    (Arr3.mk (d0, d1, d2) f).flatten (z * (d1 * d0) + y * d0 + x)⟩ },
        some ⟨(d2, d1, d0), fun z y x =>
          (Arr3.mk (d0, d1, d2) f).flatten (z * (d1 * d0) + y * d0 + x)⟩) := by
    unfold handleFullSegmentation
    simp [hru, fullMsgOf]
  refine ⟨rfl, ⟨(d2, d1, d0), fun z y x =>
      (Arr3.mk (d0, d1, d2) f).flatten (z * (d1 * d0) + y * d0 + x)⟩,
    by rw [hred], by rw [hred], by rw [hred], rfl, ?_, ?_⟩
  · intro n
    show (Arr3.mk (d0, d1, d2) f).flatten
        (n / (d1 * d0) * (d1 * d0) + n / d0 % d1 * d0 + n % d0) =
      (Arr3.mk (d0, d1, d2) f).flatten n
    rw [flatIdx_decomp d1 d0 n]
  · intro hne h
    have h1 : d2 = d0 := congrArg Prod.fst h
    exact hne h1.symm

/-- A small sender volume with three distinct axis lengths. -/
def v10 : Arr3 := ⟨(1, 2, 3), fun z y x => z + 2 * y + 4 * x⟩

theorem c10_full_reshape_reversed_witness :
    wRecvState.isUpdating = false ∧
    ((fullMsgOf v10).dimsField = v10.dims ∧
      ∃ C, (handleFullSegmentation wRecvState (fullMsgOf v10)).2 = some C ∧
        (handleFullSegmentation wRecvState (fullMsgOf v10)).1.previousSegmentation = some C ∧
        (handleFullSegmentation wRecvState (fullMsgOf v10)).1.receivedCount =
          wRecvState.receivedCount + 1 ∧
        C.dims = (v10.dims.2.2, v10.dims.2.1, v10.dims.1) ∧
        (∀ n, C.flatten n = v10.flatten n) ∧
        (v10.dims.1 ≠ v10.dims.2.2 → C.dims ≠ v10.dims)) :=
  ⟨rfl, c10_full_reshape_reversed v10 wRecvState rfl⟩
